import Mathlib

set_option maxHeartbeats 1000000

/-!
Shallow embedding of the two-tag HLS core (EXT-X-INDEPENDENT-SEGMENTS and
EXT-X-START) of the `hls_m3u8` repository, together with proofs of the
specification claims.  The tag façade (Display / FromStr for the two tag
types, their constructors, accessors and `requires_version`) is translated
from `src/tags/media_or_master_playlist.rs`; the error kind is translated
from `src/error.rs`.  The attribute-pair scanner, the two value parsers and
the auxiliary types `SignedDecimalFloatingPoint` and `ProtocolVersion` are
not part of the provided sources and are modelled from the specification
(sections 3, 4.1 and 4.2), as indicated on each definition.
-/

/-- The error kind of the crate, translated from `src/error.rs`
(`ErrorKind::InvalidInput` is the only kind). -/
inductive ErrorKind where
  | invalidInput
deriving DecidableEq

/-- Modelled from the spec: `ProtocolVersion` (section 3), "an enumeration
including at least `V1`"; the further versions of RFC 8216 are included so
that the enumeration is not a singleton. -/
inductive ProtocolVersion where
  | v1
  | v2
  | v3
  | v4
  | v5
  | v6
  | v7
deriving DecidableEq

/-- The character of a decimal digit (`d < 10` is the intended domain). -/
def natDigitChar : Nat → Char
  | 0 => '0'
  | 1 => '1'
  | 2 => '2'
  | 3 => '3'
  | 4 => '4'
  | 5 => '5'
  | 6 => '6'
  | 7 => '7'
  | 8 => '8'
  | _ => '9'

/-- Numeric value of a decimal digit character. -/
def digitVal (c : Char) : Nat := c.toNat - 48

/-- Fuelled little-endian base-10 digit list; structurally recursive so that
it evaluates inside the kernel. -/
def natDigitsAux : Nat → Nat → List Nat
  | 0, _ => []
  | _ + 1, 0 => []
  | f + 1, n + 1 => ((n + 1) % 10) :: natDigitsAux f ((n + 1) / 10)

/-- Little-endian base-10 digits of `n` (empty for `0`). -/
def natDigitsLE (n : Nat) : List Nat := natDigitsAux n n

/-- Decimal representation of a natural number, most significant digit
first, without leading zeros (and `"0"` for zero). -/
def natRepr (n : Nat) : List Char :=
  if n = 0 then ['0'] else ((natDigitsLE n).map natDigitChar).reverse

/-- Numeric value of a big-endian list of decimal digit characters. -/
def digitsVal (cs : List Char) : Nat :=
  cs.foldl (fun a c => 10 * a + digitVal c) 0

/-- Modelled from the spec: `SignedDecimalFloatingPoint` (section 3), a
finite signed decimal number, represented exactly as
`mantissa / 10 ^ exponent`.  The type itself is absent from the provided
sources; only its use sites are. -/
structure SignedDecimalFloatingPoint where
  mantissa : Int
  exponent : Nat
deriving DecidableEq

/-- A representation is well formed when it is the canonical one for its
numeric value: no insignificant trailing zero in the fractional part, i.e.
either the exponent is zero or the mantissa is not divisible by ten.  The
parser only ever produces well-formed values, mirroring the uniqueness of
the source's binary floating-point representation per numeric value. -/
def SignedDecimalFloatingPoint.WellFormed (v : SignedDecimalFloatingPoint) : Prop :=
  v.exponent = 0 ∨ v.mantissa % 10 ≠ 0

instance (v : SignedDecimalFloatingPoint) : Decidable v.WellFormed := by
  unfold SignedDecimalFloatingPoint.WellFormed
  infer_instance

/-- Strip trailing decimal zeros from `(mantissa, exponent)`. -/
def normAux : Int → Nat → Int × Nat
  | m, 0 => (m, 0)
  | m, e + 1 => if m % 10 = 0 then normAux (m / 10) e else (m, e + 1)

/-- Modelled from the spec: the canonical decimal formatter for
`SignedDecimalFloatingPoint` (section 3: optional sign, digits, optional
fractional digits; no exponent; insignificant trailing zeros never
produced by the canonical formatter). -/
def sdfChars (v : SignedDecimalFloatingPoint) : List Char :=
  let a := v.mantissa.natAbs
  let sgn : List Char := if v.mantissa < 0 then ['-'] else []
  if v.exponent = 0 then sgn ++ natRepr a
  else
    let ds := natRepr (a % 10 ^ v.exponent)
    sgn ++ natRepr (a / 10 ^ v.exponent) ++
      '.' :: (List.replicate (v.exponent - ds.length) ('0') ++ ds)

/-- Split a leading sign character off a character list. -/
def splitSign (cs : List Char) : Bool × List Char :=
  if cs.head? = some '-' then (true, cs.tail)
  else if cs.head? = some '+' then (false, cs.tail)
  else (false, cs)

/-- Modelled from the spec: the `SignedDecimalFloat` parser (section 4.2):
an optional leading `+` or `-`, one or more decimal digits, optionally
followed by `.` and one or more decimal digits; everything else is
rejected.  The numeric value is stored in canonical (trailing-zero-free)
form, mirroring the value semantics of the source representation. -/
def parseSDFChars (cs : List Char) : Option SignedDecimalFloatingPoint :=
  let sp := splitSign cs
  let ip := sp.2.takeWhile Char.isDigit
  let rest := sp.2.dropWhile Char.isDigit
  if ip = [] then none
  else
    match rest with
    | [] =>
      let m : Int := if sp.1 then -(digitsVal ip : Int) else (digitsVal ip : Int)
      some ⟨m, 0⟩
    | r :: fr =>
      if r = '.' then
        let fp := fr.takeWhile Char.isDigit
        if fp = [] then none
        else if fr.dropWhile Char.isDigit ≠ [] then none
        else
          let n : Nat := digitsVal ip * 10 ^ fp.length + digitsVal fp
          let m : Int := if sp.1 then -(n : Int) else (n : Int)
          let p := normAux m fp.length
          some ⟨p.1, p.2⟩
      else none

/-- Split a character list at every comma (no quoted strings: the two
supported tags never use them). -/
def splitOnComma : List Char → List (List Char)
  | [] => [[]]
  | c :: rest =>
    if c = ',' then [] :: splitOnComma rest
    else
      match splitOnComma rest with
      | [] => [[c]]
      | g :: gs => (c :: g) :: gs

/-- An attribute-name character: `[A-Z0-9-]` (spec section 3). -/
def isNameChar (c : Char) : Bool :=
  (decide ('A' ≤ c) && decide (c ≤ 'Z')) || c.isDigit || decide (c = '-')

/-- Modelled from the spec: one attribute pair of the scanner grammar
(section 4.1): `pair = NAME "=" VALUE`, `NAME = [A-Z0-9-]+`, `VALUE` the
raw span after the first `=`.  A pair with no `=`, an empty or ill-formed
name, or an empty value fails with `InvalidInput`. -/
def parsePairOf (p : List Char) : Except ErrorKind (List Char × List Char) :=
  let name := p.takeWhile (fun c => decide (c ≠ '='))
  let rest := p.dropWhile (fun c => decide (c ≠ '='))
  match rest with
  | [] => .error .invalidInput
  | _ :: value =>
    if name = [] then .error .invalidInput
    else if ¬ name.all isNameChar then .error .invalidInput
    else if value = [] then .error .invalidInput
    else .ok (name, value)

/-- Map a fallible function over a list, stopping at the first error. -/
def mapExcept (f : α → Except ErrorKind β) : List α → Except ErrorKind (List β)
  | [] => .ok []
  | a :: t =>
    match f a with
    | .error e => .error e
    | .ok b =>
      match mapExcept f t with
      | .error e => .error e
      | .ok bs => .ok (b :: bs)

/-- Modelled from the spec: the attribute-pair scanner (section 4.1).
Empty input yields the empty sequence; otherwise the input is split at
top-level commas and every fragment must be a well-formed pair (so a
dangling comma fails, through its empty fragment). -/
def attributePairsOf (cs : List Char) : Except ErrorKind (List (List Char × List Char)) :=
  if cs = [] then .ok []
  else mapExcept parsePairOf (splitOnComma cs)

/-- Modelled from the spec: the yes/no parser (section 4.2), case
sensitive. -/
def parseYesOrNo (v : List Char) : Except ErrorKind Bool :=
  if v = ("YES").toList then .ok true
  else if v = ("NO").toList then .ok false
  else .error .invalidInput

/-- Boolean string-prefix test on character lists (the model of Rust's
`str::starts_with` as used by the source). -/
def startsWithChars : List Char → List Char → Bool
  | [], _ => true
  | _ :: _, [] => false
  | p :: ps, c :: cs => decide (p = c) && startsWithChars ps cs

/-- Fallible left fold, stopping at the first error (the model of the
source's `for attr in attrs { let (key, value) = track!(attr)?; ... }`
loop). -/
def foldExcept (f : σ → α → Except ErrorKind σ) : σ → List α → Except ErrorKind σ
  | s, [] => .ok s
  | s, a :: t =>
    match f s a with
    | .error e => .error e
    | .ok s2 => foldExcept f s2 t

/-- The `EXT-X-INDEPENDENT-SEGMENTS` tag value, translated from
`src/tags/media_or_master_playlist.rs`. -/
structure ExtXIndependentSegments where
deriving DecidableEq

/-- The literal `#EXT-X-INDEPENDENT-SEGMENTS` (`ExtXIndependentSegments::PREFIX`). -/
def indepSegLit : List Char := ("#EXT-X-INDEPENDENT-SEGMENTS").toList

/-- Translated from the source: `ExtXIndependentSegments::requires_version`. -/
def ExtXIndependentSegments.requires_version (_ : ExtXIndependentSegments) : ProtocolVersion :=
  .v1

/-- Translated from the source: `Display for ExtXIndependentSegments`. -/
def ExtXIndependentSegments.toChars (_ : ExtXIndependentSegments) : List Char :=
  indepSegLit

/-- Translated from the source: `FromStr for ExtXIndependentSegments`:
`track_assert_eq!(s, Self::PREFIX, ErrorKind::InvalidInput)`. -/
def ExtXIndependentSegments.fromChars (cs : List Char) : Except ErrorKind ExtXIndependentSegments :=
  if cs = indepSegLit then .ok ⟨⟩ else .error .invalidInput

/-- String-level wrapper of the formatter. -/
def ExtXIndependentSegments.format (v : ExtXIndependentSegments) : String :=
  ⟨v.toChars⟩

/-- String-level wrapper of the parser. -/
def ExtXIndependentSegments.fromString (s : String) : Except ErrorKind ExtXIndependentSegments :=
  ExtXIndependentSegments.fromChars s.toList

/-- The `EXT-X-START` tag value, translated from
`src/tags/media_or_master_playlist.rs`. -/
structure ExtXStart where
  time_offset : SignedDecimalFloatingPoint
  precise : Bool
deriving DecidableEq

/-- The literal `#EXT-X-START:` (`ExtXStart::PREFIX`). -/
def startTagLit : List Char := ("#EXT-X-START:").toList

/-- The recognized attribute name `TIME-OFFSET`. -/
def timeOffsetKey : List Char := ("TIME-OFFSET").toList

/-- The recognized attribute name `PRECISE`. -/
def preciseKey : List Char := ("PRECISE").toList

/-- Translated from the source: `ExtXStart::new` (`precise` is false). -/
def ExtXStart.new (time_offset : SignedDecimalFloatingPoint) : ExtXStart :=
  ⟨time_offset, false⟩

/-- Translated from the source: `ExtXStart::with_precise`. -/
def ExtXStart.with_precise (time_offset : SignedDecimalFloatingPoint) (precise : Bool) : ExtXStart :=
  ⟨time_offset, precise⟩

/-- Translated from the source: `ExtXStart::requires_version`. -/
def ExtXStart.requires_version (_ : ExtXStart) : ProtocolVersion :=
  .v1

/-- One iteration of the source's attribute loop: route a scanned pair to
the matching value parser (`TIME-OFFSET`, `PRECISE`), ignore unrecognized
names; translated from `FromStr for ExtXStart`. -/
def startStep (st : Option SignedDecimalFloatingPoint × Bool) (kv : List Char × List Char) :
    Except ErrorKind (Option SignedDecimalFloatingPoint × Bool) :=
  if kv.1 = timeOffsetKey then
    match parseSDFChars kv.2 with
    | some v => .ok (some v, st.2)
    | none => .error .invalidInput
  else if kv.1 = preciseKey then
    match parseYesOrNo kv.2 with
    | .ok b => .ok (st.1, b)
    | .error e => .error e
  else .ok st

/-- Result assembly of the source's `FromStr for ExtXStart`: propagate a
loop error, require `TIME-OFFSET` (`track_assert_some!`), build the
record. -/
def startFinish (r : Except ErrorKind (Option SignedDecimalFloatingPoint × Bool)) :
    Except ErrorKind ExtXStart :=
  match r with
  | .error e => .error e
  | .ok (none, _) => .error .invalidInput
  | .ok (some t, p) => .ok ⟨t, p⟩

/-- Attribute-list phase of the source's `FromStr for ExtXStart`:
propagate a scanner error, otherwise run the attribute loop and assemble. -/
def startOf (r : Except ErrorKind (List (List Char × List Char))) : Except ErrorKind ExtXStart :=
  match r with
  | .error e => .error e
  | .ok prs => startFinish (foldExcept startStep (none, false) prs)

/-- Translated from the source: `FromStr for ExtXStart`: prefix check,
scan the remainder into pairs, fold the attribute loop, require
`TIME-OFFSET`. -/
def ExtXStart.fromChars (cs : List Char) : Except ErrorKind ExtXStart :=
  if startsWithChars startTagLit cs then
    startOf (attributePairsOf (cs.drop startTagLit.length))
  else .error .invalidInput

/-- Translated from the source: `Display for ExtXStart`: the prefix, then
`TIME-OFFSET=<value>`, then `,PRECISE=YES` exactly when `precise`. -/
def ExtXStart.toChars (v : ExtXStart) : List Char :=
  startTagLit ++ ("TIME-OFFSET=").toList ++ sdfChars v.time_offset ++
    (if v.precise then (",PRECISE=YES").toList else [])

/-- String-level wrapper of the formatter. -/
def ExtXStart.format (v : ExtXStart) : String :=
  ⟨v.toChars⟩

/-- String-level wrapper of the parser. -/
def ExtXStart.fromString (s : String) : Except ErrorKind ExtXStart :=
  ExtXStart.fromChars s.toList

/-- Whether a fallible result is an error. -/
def isErr {β : Type} (r : Except ErrorKind β) : Bool :=
  match r with
  | .error _ => true
  | .ok _ => false

/-- A scanned pair whose name is recognized (`TIME-OFFSET` or `PRECISE`)
but whose value fails its type validation. -/
def BadVal (kv : List Char × List Char) : Prop :=
  (kv.1 = timeOffsetKey ∧ parseSDFChars kv.2 = none) ∨
  (kv.1 = preciseKey ∧ isErr (parseYesOrNo kv.2) = true)

instance (kv : List Char × List Char) : Decidable (BadVal kv) := by
  unfold BadVal
  infer_instance

/-- The last pair of a pair list carrying the given attribute name. -/
def lastOf (prs : List (List Char × List Char)) (k : List Char) :
    Option (List Char × List Char) :=
  (prs.filter (fun kv => decide (kv.1 = k))).getLast?

/-- The time offset recorded after the loop: the parse of the last
`TIME-OFFSET` pair, or the initial value when there is none. -/
def modelTO (o : Option SignedDecimalFloatingPoint)
    (prs : List (List Char × List Char)) : Option SignedDecimalFloatingPoint :=
  match lastOf prs timeOffsetKey with
  | none => o
  | some kv => parseSDFChars kv.2

/-- The precise flag recorded after the loop: the parse of the last
`PRECISE` pair, or the initial value when there is none. -/
def modelPrecise (b : Bool) (prs : List (List Char × List Char)) : Bool :=
  match lastOf prs preciseKey with
  | none => b
  | some kv =>
    match parseYesOrNo kv.2 with
    | .ok x => x
    | .error _ => b

/-- Declarative summary of the attribute loop: it fails exactly when some
recognized pair carries a malformed value, and otherwise the last
occurrence of each recognized key wins. -/
def foldModel (o : Option SignedDecimalFloatingPoint) (b : Bool)
    (prs : List (List Char × List Char)) :
    Except ErrorKind (Option SignedDecimalFloatingPoint × Bool) :=
  if ∃ kv ∈ prs, BadVal kv then .error .invalidInput
  else .ok (modelTO o prs, modelPrecise b prs)

/-- The attribute-pair grammar of a tag-line remainder is violated: the
scanner rejects it. -/
def GrammarViolated (cs : List Char) : Prop :=
  ∃ e, attributePairsOf cs = .error e

/-- The remainder scans, but some recognized attribute fails its type
validation. -/
def HasBadRecognized (cs : List Char) : Prop :=
  ∃ prs, attributePairsOf cs = .ok prs ∧ ∃ kv ∈ prs, BadVal kv

/-- The remainder scans, but no pair carries the required `TIME-OFFSET`
name. -/
def MissingTimeOffset (cs : List Char) : Prop :=
  ∃ prs, attributePairsOf cs = .ok prs ∧ ∀ kv ∈ prs, kv.1 ≠ timeOffsetKey

/-- A pair whose name is one of the two recognized attribute names. -/
def recognizedPair (kv : List Char × List Char) : Bool :=
  decide (kv.1 = timeOffsetKey) || decide (kv.1 = preciseKey)

/-! Helper lemmas about decimal digits and lists. -/

theorem natDigitsAux_eq (f n : Nat) (h : n ≤ f) : natDigitsAux f n = Nat.digits 10 n := by
  induction f generalizing n with
  | zero =>
    interval_cases n
    simp [natDigitsAux]
  | succ f ih =>
    cases n with
    | zero => simp [natDigitsAux]
    | succ m =>
      rw [natDigitsAux, Nat.digits_def' (show (1 : Nat) < 10 by norm_num) (Nat.succ_pos m)]
      congr 1
      refine ih _ ?_
      have hlt : (m + 1) / 10 < m + 1 := Nat.div_lt_self (Nat.succ_pos m) (by norm_num)
      omega

theorem natDigitsLE_eq (n : Nat) : natDigitsLE n = Nat.digits 10 n :=
  natDigitsAux_eq n n le_rfl

theorem digitVal_natDigitChar (d : Nat) (h : d < 10) : digitVal (natDigitChar d) = d := by
  interval_cases d <;> rfl

theorem isDigit_natDigitChar (d : Nat) (h : d < 10) : (natDigitChar d).isDigit = true := by
  interval_cases d <;> rfl

theorem natRepr_all_digits (n : Nat) : ∀ c ∈ natRepr n, c.isDigit = true := by
  intro c hc
  unfold natRepr at hc
  split at hc
  · simp at hc
    subst hc
    rfl
  · rw [List.mem_reverse, List.mem_map] at hc
    obtain ⟨d, hd, rfl⟩ := hc
    rw [natDigitsLE_eq] at hd
    exact isDigit_natDigitChar d (Nat.digits_lt_base (by norm_num) hd)

theorem natRepr_ne_nil (n : Nat) : natRepr n ≠ [] := by
  unfold natRepr
  split
  · simp
  · simp only [ne_eq, List.reverse_eq_nil_iff, List.map_eq_nil_iff]
    rw [natDigitsLE_eq]
    exact Nat.digits_ne_nil_iff_ne_zero.mpr (by assumption)

theorem digitsVal_acc (cs : List Char) : ∀ a : Nat,
    cs.foldl (fun a c => 10 * a + digitVal c) a =
      a * 10 ^ cs.length + cs.foldl (fun a c => 10 * a + digitVal c) 0 := by
  induction cs with
  | nil => intro a; simp
  | cons c t ih =>
    intro a
    rw [List.foldl_cons, List.foldl_cons, ih (10 * a + digitVal c),
      ih (10 * 0 + digitVal c), List.length_cons]
    ring

theorem digitsVal_append (xs ys : List Char) :
    digitsVal (xs ++ ys) = digitsVal xs * 10 ^ ys.length + digitsVal ys := by
  unfold digitsVal
  rw [List.foldl_append]
  exact digitsVal_acc ys (digitsVal xs)

theorem digitsVal_revmap (l : List Nat) (h : ∀ d ∈ l, d < 10) :
    digitsVal ((l.map natDigitChar).reverse) = Nat.ofDigits 10 l := by
  induction l with
  | nil => simp [digitsVal, Nat.ofDigits_nil]
  | cons d t ih =>
    have hd : d < 10 := h d (List.mem_cons_self d t)
    have ht : ∀ x ∈ t, x < 10 := fun x hx => h x (List.mem_cons_of_mem d hx)
    rw [List.map_cons, List.reverse_cons, digitsVal_append, ih ht, Nat.ofDigits_cons]
    have hv : digitsVal [natDigitChar d] = d := by
      show (10 * 0 + digitVal (natDigitChar d)) = d
      rw [digitVal_natDigitChar d hd]
      ring
    rw [hv]
    simp
    ring

theorem digitsVal_natRepr (n : Nat) : digitsVal (natRepr n) = n := by
  unfold natRepr
  split
  · subst_vars
    rfl
  · rw [natDigitsLE_eq, digitsVal_revmap _ (fun d hd => Nat.digits_lt_base (by norm_num) hd),
      Nat.ofDigits_digits]

theorem natRepr_length_le (n e : Nat) (he : 0 < e) (h : n < 10 ^ e) :
    (natRepr n).length ≤ e := by
  unfold natRepr
  split
  · simpa using he
  · rw [List.length_reverse, List.length_map, natDigitsLE_eq]
    have hn : n ≠ 0 := by assumption
    rw [Nat.digits_len 10 n (by norm_num) hn]
    have := (Nat.lt_pow_iff_log_lt (show (1 : Nat) < 10 by norm_num) hn).mp h
    omega

theorem digitsVal_replicate_zero (k : Nat) : digitsVal (List.replicate k ('0')) = 0 := by
  induction k with
  | zero => rfl
  | succ k ih =>
    unfold digitsVal at ih ⊢
    rw [List.replicate_succ, List.foldl_cons]
    simpa using ih

theorem digitsVal_pad (k : Nat) (ds : List Char) :
    digitsVal (List.replicate k ('0') ++ ds) = digitsVal ds := by
  rw [digitsVal_append, digitsVal_replicate_zero]
  simp

theorem listTakeWhileAll {α : Type} (p : α → Bool) :
    ∀ xs : List α, (∀ x ∈ xs, p x = true) → (xs.takeWhile p = xs ∧ xs.dropWhile p = []) := by
  intro xs
  induction xs with
  | nil => intro _; simp
  | cons c t ih =>
    intro h
    have hc : p c = true := h c (List.mem_cons_self c t)
    have ht := ih (fun x hx => h x (List.mem_cons_of_mem c hx))
    rw [List.takeWhile_cons, List.dropWhile_cons, hc]
    simp [ht.1, ht.2]

theorem listSpanAppend {α : Type} (p : α → Bool) (xs : List α) (y : α) (ys : List α)
    (hx : ∀ x ∈ xs, p x = true) (hy : p y = false) :
    ((xs ++ y :: ys).takeWhile p = xs ∧ (xs ++ y :: ys).dropWhile p = y :: ys) := by
  induction xs with
  | nil =>
    rw [List.nil_append, List.takeWhile_cons, List.dropWhile_cons, hy]
    simp
  | cons c t ih =>
    have hc : p c = true := hx c (List.mem_cons_self c t)
    have ht := ih (fun x hxm => hx x (List.mem_cons_of_mem c hxm))
    rw [List.cons_append, List.takeWhile_cons, List.dropWhile_cons, hc]
    simp [ht.1, ht.2]

theorem isDigit_char_ne (c : Char) (h : c.isDigit = true) :
    c ≠ '-' ∧ c ≠ '+' ∧ c ≠ ',' ∧ c ≠ '.' ∧ c ≠ '=' := by
  refine ⟨?_, ?_, ?_, ?_, ?_⟩ <;> rintro rfl <;> exact absurd h (by decide)

theorem splitSign_digit (c : Char) (t : List Char) (h : c.isDigit = true) :
    splitSign (c :: t) = (false, c :: t) := by
  obtain ⟨h1, h2, -, -, -⟩ := isDigit_char_ne c h
  simp [splitSign, h1, h2]

theorem splitSign_neg (t : List Char) : splitSign ('-' :: t) = (true, t) := by
  simp [splitSign]

theorem normAux_stop (m : Int) (e : Nat) (h : e = 0 ∨ m % 10 ≠ 0) : normAux m e = (m, e) := by
  cases e with
  | zero => rfl
  | succ e =>
    have hm : m % 10 ≠ 0 := h.resolve_left (by omega)
    rw [normAux, if_neg hm]

theorem splitOnComma_ne_nil (cs : List Char) : splitOnComma cs ≠ [] := by
  induction cs with
  | nil => simp [splitOnComma]
  | cons c rest ih =>
    rw [splitOnComma]
    split
    · simp
    · cases hs : splitOnComma rest with
      | nil => simp
      | cons g gs => simp

theorem splitOnComma_no (xs : List Char) (h : ∀ c ∈ xs, c ≠ ',') : splitOnComma xs = [xs] := by
  induction xs with
  | nil => rfl
  | cons c t ih =>
    rw [splitOnComma]
    have hc : ¬ (c = ',') := h c (List.mem_cons_self c t)
    rw [if_neg hc, ih (fun x hx => h x (List.mem_cons_of_mem c hx))]

theorem splitOnComma_append (xs ys : List Char) (h : ∀ c ∈ xs, c ≠ ',') :
    splitOnComma (xs ++ ',' :: ys) = xs :: splitOnComma ys := by
  induction xs with
  | nil =>
    rw [List.nil_append, splitOnComma, if_pos rfl]
  | cons c t ih =>
    rw [List.cons_append, splitOnComma]
    have hc : ¬ (c = ',') := h c (List.mem_cons_self c t)
    rw [if_neg hc, ih (fun x hx => h x (List.mem_cons_of_mem c hx))]

theorem startsWithChars_append (p r : List Char) : startsWithChars p (p ++ r) = true := by
  induction p with
  | nil => rfl
  | cons c t ih => simpa [startsWithChars] using ih

theorem startsWithChars_exists (p cs : List Char) (h : startsWithChars p cs = true) :
    ∃ r, cs = p ++ r := by
  induction p generalizing cs with
  | nil => exact ⟨cs, rfl⟩
  | cons c t ih =>
    cases cs with
    | nil => exact absurd h (by simp [startsWithChars])
    | cons d ds =>
      simp only [startsWithChars, Bool.and_eq_true, decide_eq_true_eq] at h
      obtain ⟨rfl, h2⟩ := h
      obtain ⟨r, rfl⟩ := ih ds h2
      exact ⟨r, rfl⟩

theorem parseSDFChars_int_pos (ds : List Char) (hne : ds ≠ [])
    (hall : ∀ c ∈ ds, c.isDigit = true) :
    parseSDFChars ds = some ⟨(digitsVal ds : Int), 0⟩ := by
  obtain ⟨c, t, rfl⟩ := List.exists_cons_of_ne_nil hne
  obtain ⟨htw, hdw⟩ := listTakeWhileAll Char.isDigit (c :: t) hall
  simp only [parseSDFChars, splitSign_digit c t (hall c (List.mem_cons_self c t)), htw, hdw]
  simp

theorem parseSDFChars_int_neg (ds : List Char) (hne : ds ≠ [])
    (hall : ∀ c ∈ ds, c.isDigit = true) :
    parseSDFChars ('-' :: ds) = some ⟨-(digitsVal ds : Int), 0⟩ := by
  obtain ⟨htw, hdw⟩ := listTakeWhileAll Char.isDigit ds hall
  simp only [parseSDFChars, splitSign_neg, htw, hdw]
  simp [hne]

theorem parseSDFChars_frac_pos (ds fs : List Char) (hd : ds ≠ []) (hf : fs ≠ [])
    (halld : ∀ c ∈ ds, c.isDigit = true) (hallf : ∀ c ∈ fs, c.isDigit = true) :
    parseSDFChars (ds ++ '.' :: fs) =
      some ⟨(normAux ((digitsVal ds * 10 ^ fs.length + digitsVal fs : Nat) : Int) fs.length).1,
            (normAux ((digitsVal ds * 10 ^ fs.length + digitsVal fs : Nat) : Int) fs.length).2⟩ := by
  obtain ⟨c, t, rfl⟩ := List.exists_cons_of_ne_nil hd
  obtain ⟨htw, hdw⟩ := listSpanAppend Char.isDigit (c :: t) ('.') fs halld (by decide)
  obtain ⟨hfw, hfd⟩ := listTakeWhileAll Char.isDigit fs hallf
  simp only [List.cons_append] at htw hdw
  simp only [parseSDFChars, List.cons_append,
    splitSign_digit c (t ++ '.' :: fs) (halld c (List.mem_cons_self c t)), htw, hdw, hfw, hfd]
  simp [hf]

theorem parseSDFChars_frac_neg (ds fs : List Char) (hd : ds ≠ []) (hf : fs ≠ [])
    (halld : ∀ c ∈ ds, c.isDigit = true) (hallf : ∀ c ∈ fs, c.isDigit = true) :
    parseSDFChars ('-' :: (ds ++ '.' :: fs)) =
      some ⟨(normAux (-((digitsVal ds * 10 ^ fs.length + digitsVal fs : Nat) : Int)) fs.length).1,
            (normAux (-((digitsVal ds * 10 ^ fs.length + digitsVal fs : Nat) : Int)) fs.length).2⟩ := by
  obtain ⟨htw, hdw⟩ := listSpanAppend Char.isDigit ds ('.') fs halld (by decide)
  obtain ⟨hfw, hfd⟩ := listTakeWhileAll Char.isDigit fs hallf
  simp only [parseSDFChars, splitSign_neg, htw, hdw, hfw, hfd]
  simp [hd, hf]

/-- Core round trip for the signed decimal type: parsing the canonical
formatting of any well-formed value yields that value back. -/
theorem sdfChars_roundtrip (v : SignedDecimalFloatingPoint) (h : v.WellFormed) :
    parseSDFChars (sdfChars v) = some v := by
  obtain ⟨m, e⟩ := v
  cases e with
  | zero =>
    by_cases hm : m < 0
    · have hsf : sdfChars ⟨m, 0⟩ = '-' :: natRepr m.natAbs := by
        simp [sdfChars, hm]
      rw [hsf, parseSDFChars_int_neg _ (natRepr_ne_nil _) (natRepr_all_digits _),
        digitsVal_natRepr]
      have : -(m.natAbs : Int) = m := by omega
      rw [this]
    · have hsf : sdfChars ⟨m, 0⟩ = natRepr m.natAbs := by
        simp [sdfChars, hm]
      rw [hsf, parseSDFChars_int_pos _ (natRepr_ne_nil _) (natRepr_all_digits _),
        digitsVal_natRepr]
      have : (m.natAbs : Int) = m := by omega
      rw [this]
  | succ e =>
    have hm10 : m % 10 ≠ 0 := by
      rcases h with h0 | h10
      · exact absurd h0 (Nat.succ_ne_zero e)
      · exact h10
    have hP : 0 < 10 ^ (e + 1) := Nat.pos_pow_of_pos _ (by norm_num)
    have hlt : m.natAbs % 10 ^ (e + 1) < 10 ^ (e + 1) := Nat.mod_lt _ hP
    have hlen : (natRepr (m.natAbs % 10 ^ (e + 1))).length ≤ e + 1 :=
      natRepr_length_le _ _ (Nat.succ_pos e) hlt
    have hpadAll : ∀ c ∈ List.replicate (e + 1 - (natRepr (m.natAbs % 10 ^ (e + 1))).length) ('0')
        ++ natRepr (m.natAbs % 10 ^ (e + 1)), c.isDigit = true := by
      intro c hc
      rcases List.mem_append.mp hc with hc | hc
      · rw [List.eq_of_mem_replicate hc]
        rfl
      · exact natRepr_all_digits _ c hc
    have hpadne : List.replicate (e + 1 - (natRepr (m.natAbs % 10 ^ (e + 1))).length) ('0')
        ++ natRepr (m.natAbs % 10 ^ (e + 1)) ≠ [] := by
      intro hcon
      exact natRepr_ne_nil _ (List.append_eq_nil.mp hcon).2
    have hpadlen : (List.replicate (e + 1 - (natRepr (m.natAbs % 10 ^ (e + 1))).length) ('0')
        ++ natRepr (m.natAbs % 10 ^ (e + 1))).length = e + 1 := by
      rw [List.length_append, List.length_replicate]
      omega
    have hpadval : digitsVal (List.replicate (e + 1 - (natRepr (m.natAbs % 10 ^ (e + 1))).length) ('0')
        ++ natRepr (m.natAbs % 10 ^ (e + 1))) = m.natAbs % 10 ^ (e + 1) := by
      rw [digitsVal_pad, digitsVal_natRepr]
    have hval : digitsVal (natRepr (m.natAbs / 10 ^ (e + 1))) *
        10 ^ (List.replicate (e + 1 - (natRepr (m.natAbs % 10 ^ (e + 1))).length) ('0')
          ++ natRepr (m.natAbs % 10 ^ (e + 1))).length +
        digitsVal (List.replicate (e + 1 - (natRepr (m.natAbs % 10 ^ (e + 1))).length) ('0')
          ++ natRepr (m.natAbs % 10 ^ (e + 1))) = m.natAbs := by
      rw [hpadlen, hpadval, digitsVal_natRepr, Nat.div_add_mod' _ _]
    by_cases hm : m < 0
    · have hsf : sdfChars ⟨m, e + 1⟩ = '-' :: (natRepr (m.natAbs / 10 ^ (e + 1)) ++
          '.' :: (List.replicate (e + 1 - (natRepr (m.natAbs % 10 ^ (e + 1))).length) ('0')
            ++ natRepr (m.natAbs % 10 ^ (e + 1)))) := by
        simp [sdfChars, hm]
      rw [hsf, parseSDFChars_frac_neg _ _ (natRepr_ne_nil _) hpadne
        (natRepr_all_digits _) hpadAll, hval, hpadlen]
      have hmm : -((m.natAbs : Nat) : Int) = m := by omega
      rw [hmm, normAux_stop m (e + 1) (Or.inr hm10)]
    · have hsf : sdfChars ⟨m, e + 1⟩ = natRepr (m.natAbs / 10 ^ (e + 1)) ++
          '.' :: (List.replicate (e + 1 - (natRepr (m.natAbs % 10 ^ (e + 1))).length) ('0')
            ++ natRepr (m.natAbs % 10 ^ (e + 1))) := by
        simp [sdfChars, hm]
      rw [hsf, parseSDFChars_frac_pos _ _ (natRepr_ne_nil _) hpadne
        (natRepr_all_digits _) hpadAll, hval, hpadlen]
      have hmm : ((m.natAbs : Nat) : Int) = m := by omega
      rw [hmm, normAux_stop m (e + 1) (Or.inr hm10)]

theorem sdfChars_charOk (v : SignedDecimalFloatingPoint) :
    ∀ c ∈ sdfChars v, c.isDigit = true ∨ c = '-' ∨ c = '.' := by
  intro c hc
  have hrepl : ∀ (k n : Nat), c ∈ List.replicate k ('0') ++ natRepr n → c.isDigit = true := by
    intro k n hmem
    rcases List.mem_append.mp hmem with h1 | h2
    · rw [List.eq_of_mem_replicate h1]
      rfl
    · exact natRepr_all_digits _ c h2
  by_cases he : v.exponent = 0
  · by_cases hm : v.mantissa < 0
    · have hsf : sdfChars v = '-' :: natRepr v.mantissa.natAbs := by
        simp [sdfChars, hm, he]
      rw [hsf] at hc
      rcases List.mem_cons.mp hc with h1 | h2
      · right
        left
        exact h1
      · left
        exact natRepr_all_digits _ c h2
    · have hsf : sdfChars v = natRepr v.mantissa.natAbs := by
        simp [sdfChars, hm, he]
      rw [hsf] at hc
      left
      exact natRepr_all_digits _ c hc
  · by_cases hm : v.mantissa < 0
    · have hsf : sdfChars v = '-' :: (natRepr (v.mantissa.natAbs / 10 ^ v.exponent) ++
          '.' :: (List.replicate (v.exponent - (natRepr (v.mantissa.natAbs % 10 ^ v.exponent)).length) ('0')
            ++ natRepr (v.mantissa.natAbs % 10 ^ v.exponent))) := by
        simp [sdfChars, hm, he]
      rw [hsf] at hc
      rcases List.mem_cons.mp hc with h1 | h2
      · right
        left
        exact h1
      rcases List.mem_append.mp h2 with h3 | h4
      · left
        exact natRepr_all_digits _ c h3
      rcases List.mem_cons.mp h4 with h5 | h6
      · right
        right
        exact h5
      · left
        exact hrepl _ _ h6
    · have hsf : sdfChars v = natRepr (v.mantissa.natAbs / 10 ^ v.exponent) ++
          '.' :: (List.replicate (v.exponent - (natRepr (v.mantissa.natAbs % 10 ^ v.exponent)).length) ('0')
            ++ natRepr (v.mantissa.natAbs % 10 ^ v.exponent)) := by
        simp [sdfChars, hm, he]
      rw [hsf] at hc
      rcases List.mem_append.mp hc with h3 | h4
      · left
        exact natRepr_all_digits _ c h3
      rcases List.mem_cons.mp h4 with h5 | h6
      · right
        right
        exact h5
      · left
        exact hrepl _ _ h6

theorem sdfChars_ne (v : SignedDecimalFloatingPoint) :
    ∀ c ∈ sdfChars v, c ≠ ',' ∧ c ≠ '=' ∧ c ≠ 'N' ∧ c ≠ 'P' ∧ c ≠ 'Y' := by
  intro c hc
  rcases sdfChars_charOk v c hc with hd | rfl | rfl
  · refine ⟨?_, ?_, ?_, ?_, ?_⟩ <;> rintro rfl <;> exact absurd hd (by decide)
  · exact ⟨by decide, by decide, by decide, by decide, by decide⟩
  · exact ⟨by decide, by decide, by decide, by decide, by decide⟩

theorem sdfChars_ne_nil (v : SignedDecimalFloatingPoint) : sdfChars v ≠ [] := by
  by_cases he : v.exponent = 0
  · by_cases hm : v.mantissa < 0
    · have hsf : sdfChars v = '-' :: natRepr v.mantissa.natAbs := by
        simp [sdfChars, hm, he]
      rw [hsf]
      exact List.cons_ne_nil _ _
    · have hsf : sdfChars v = natRepr v.mantissa.natAbs := by
        simp [sdfChars, hm, he]
      rw [hsf]
      exact natRepr_ne_nil _
  · by_cases hm : v.mantissa < 0
    · have hsf : sdfChars v = '-' :: (natRepr (v.mantissa.natAbs / 10 ^ v.exponent) ++
          '.' :: (List.replicate (v.exponent - (natRepr (v.mantissa.natAbs % 10 ^ v.exponent)).length) ('0')
            ++ natRepr (v.mantissa.natAbs % 10 ^ v.exponent))) := by
        simp [sdfChars, hm, he]
      rw [hsf]
      exact List.cons_ne_nil _ _
    · have hsf : sdfChars v = natRepr (v.mantissa.natAbs / 10 ^ v.exponent) ++
          '.' :: (List.replicate (v.exponent - (natRepr (v.mantissa.natAbs % 10 ^ v.exponent)).length) ('0')
            ++ natRepr (v.mantissa.natAbs % 10 ^ v.exponent)) := by
        simp [sdfChars, hm, he]
      rw [hsf]
      intro hcon
      exact natRepr_ne_nil _ (List.append_eq_nil.mp hcon).1

theorem parsePairOf_timeOffset (value : List Char) (hv : value ≠ []) :
    parsePairOf (("TIME-OFFSET").toList ++ '=' :: value) = .ok (timeOffsetKey, value) := by
  obtain ⟨htw, hdw⟩ := listSpanAppend (fun c => decide (c ≠ '='))
    (("TIME-OFFSET").toList) ('=') value (by decide) (by decide)
  simp only [parsePairOf, htw, hdw]
  simp [timeOffsetKey, hv, isNameChar]

theorem mapExcept_nil (f : α → Except ErrorKind β) : mapExcept f [] = .ok [] := rfl

theorem mapExcept_cons (f : α → Except ErrorKind β) (a : α) (l : List α) :
    mapExcept f (a :: l) =
      match f a with
      | .error e => .error e
      | .ok b =>
        match mapExcept f l with
        | .error e => .error e
        | .ok bs => .ok (b :: bs) := rfl

theorem foldExcept_nil (f : σ → α → Except ErrorKind σ) (s : σ) : foldExcept f s [] = .ok s := rfl

theorem foldExcept_cons (f : σ → α → Except ErrorKind σ) (s : σ) (a : α) (l : List α) :
    foldExcept f s (a :: l) =
      match f s a with
      | .error e => .error e
      | .ok s2 => foldExcept f s2 l := rfl

theorem startOf_ok (prs : List (List Char × List Char)) :
    startOf (.ok prs) = startFinish (foldExcept startStep (none, false) prs) := rfl

theorem startOf_error (e : ErrorKind) : startOf (.error e) = .error e := rfl

theorem startFinish_ok_some (t : SignedDecimalFloatingPoint) (p : Bool) :
    startFinish (.ok (some t, p)) = .ok ⟨t, p⟩ := rfl

theorem startFinish_ok_none (p : Bool) :
    startFinish (.ok (none, p)) = .error .invalidInput := rfl

theorem startFinish_error (e : ErrorKind) : startFinish (.error e) = .error e := rfl

theorem fromChars_toChars (v : ExtXStart) (h : v.time_offset.WellFormed) :
    ExtXStart.fromChars (ExtXStart.toChars v) = .ok v := by
  obtain ⟨t, p⟩ := v
  have hwf : t.WellFormed := h
  have hTOeq : ("TIME-OFFSET=").toList = ("TIME-OFFSET").toList ++ ['='] := by decide
  have hPYeq : (",PRECISE=YES").toList = ',' :: ("PRECISE=YES").toList := by decide
  have hsdfne := sdfChars_ne_nil t
  have hnc : ∀ c ∈ ("TIME-OFFSET").toList ++ '=' :: sdfChars t, c ≠ ',' := by
    intro c hc
    rcases List.mem_append.mp hc with h1 | h2
    · have hall : ∀ c ∈ ("TIME-OFFSET").toList, c ≠ ',' := by decide
      exact hall c h1
    · rcases List.mem_cons.mp h2 with rfl | h3
      · decide
      · exact (sdfChars_ne t c h3).1
  have hstep1 : startStep (none, false) (timeOffsetKey, sdfChars t) = .ok (some t, false) := by
    simp [startStep, sdfChars_roundtrip t hwf]
  cases p with
  | false =>
    have hshape : ExtXStart.toChars ⟨t, false⟩ =
        startTagLit ++ (("TIME-OFFSET").toList ++ '=' :: sdfChars t) := by
      simp [ExtXStart.toChars, hTOeq, List.append_assoc]
    have hR : attributePairsOf (("TIME-OFFSET").toList ++ '=' :: sdfChars t) =
        .ok [(timeOffsetKey, sdfChars t)] := by
      rw [attributePairsOf, if_neg (by simp), splitOnComma_no _ hnc,
        mapExcept_cons, parsePairOf_timeOffset _ hsdfne]
      rfl
    have hfold : foldExcept startStep (none, false) [(timeOffsetKey, sdfChars t)] =
        .ok (some t, false) := by
      rw [foldExcept_cons, hstep1]
      rfl
    rw [hshape, ExtXStart.fromChars, startsWithChars_append, if_pos rfl,
      List.drop_left, hR, startOf_ok, hfold, startFinish_ok_some]
  | true =>
    have hshape : ExtXStart.toChars ⟨t, true⟩ =
        startTagLit ++ ((("TIME-OFFSET").toList ++ '=' :: sdfChars t) ++
          ',' :: ("PRECISE=YES").toList) := by
      simp [ExtXStart.toChars, hTOeq, hPYeq, List.append_assoc]
    have hpairP : parsePairOf (("PRECISE=YES").toList) = .ok (preciseKey, ("YES").toList) := by
      rfl
    have hR : attributePairsOf ((("TIME-OFFSET").toList ++ '=' :: sdfChars t) ++
        ',' :: ("PRECISE=YES").toList) =
        .ok [(timeOffsetKey, sdfChars t), (preciseKey, ("YES").toList)] := by
      rw [attributePairsOf, if_neg (by simp), splitOnComma_append _ _ hnc,
        splitOnComma_no _ (by decide), mapExcept_cons, parsePairOf_timeOffset _ hsdfne,
        mapExcept_cons, hpairP]
      rfl
    have hstep2 : startStep (some t, false) (preciseKey, ("YES").toList) =
        .ok (some t, true) := by
      rw [startStep, if_neg (by decide), if_pos rfl]
      rfl
    have hfold : foldExcept startStep (none, false)
        [(timeOffsetKey, sdfChars t), (preciseKey, ("YES").toList)] = .ok (some t, true) := by
      rw [foldExcept_cons, hstep1]
      show foldExcept startStep (some t, false) [(preciseKey, ("YES").toList)] =
        .ok (some t, true)
      rw [foldExcept_cons, hstep2]
      rfl
    rw [hshape, ExtXStart.fromChars, startsWithChars_append, if_pos rfl,
      List.drop_left, hR, startOf_ok, hfold, startFinish_ok_some]

theorem timeOffsetKey_ne_preciseKey : timeOffsetKey ≠ preciseKey := by decide

theorem lastOf_mem (t : List (List Char × List Char)) (k : List Char)
    (kv2 : List Char × List Char) (h : lastOf t k = some kv2) : kv2 ∈ t ∧ kv2.1 = k := by
  unfold lastOf at h
  have hmem := List.mem_of_getLast?_eq_some h
  rw [List.mem_filter] at hmem
  exact ⟨hmem.1, by simpa using hmem.2⟩

theorem getLast?_cons_eq {α : Type} (a : α) (l : List α) :
    (a :: l).getLast? = some (l.getLast?.getD a) := by
  induction l generalizing a with
  | nil => rfl
  | cons b t ih =>
    rw [List.getLast?_cons_cons, ih b]
    rcases hl : t.getLast? with - | x <;> simp [List.getLast?_cons_cons, ih b, hl]

theorem lastOf_cons_pos (kv : List Char × List Char) (t : List (List Char × List Char))
    (k : List Char) (h : kv.1 = k) :
    lastOf (kv :: t) k = some ((lastOf t k).getD kv) := by
  unfold lastOf
  rw [List.filter_cons_of_pos (by simp [h])]
  exact getLast?_cons_eq _ _

theorem lastOf_cons_neg (kv : List Char × List Char) (t : List (List Char × List Char))
    (k : List Char) (h : ¬ kv.1 = k) :
    lastOf (kv :: t) k = lastOf t k := by
  unfold lastOf
  rw [List.filter_cons_of_neg (by simp [h])]

theorem modelTO_last_none (o : Option SignedDecimalFloatingPoint)
    (prs : List (List Char × List Char)) (hl : lastOf prs timeOffsetKey = none) :
    modelTO o prs = o := by
  unfold modelTO
  rw [hl]

theorem modelTO_last_some (o : Option SignedDecimalFloatingPoint)
    (prs : List (List Char × List Char)) (kv : List Char × List Char)
    (hl : lastOf prs timeOffsetKey = some kv) : modelTO o prs = parseSDFChars kv.2 := by
  unfold modelTO
  rw [hl]

theorem modelPrecise_last_none (b : Bool) (prs : List (List Char × List Char))
    (hl : lastOf prs preciseKey = none) : modelPrecise b prs = b := by
  unfold modelPrecise
  rw [hl]

theorem modelTO_update (kv : List Char × List Char) (t : List (List Char × List Char))
    (o : Option SignedDecimalFloatingPoint) (x : SignedDecimalFloatingPoint)
    (hk : kv.1 = timeOffsetKey) (hv : parseSDFChars kv.2 = some x) :
    modelTO o (kv :: t) = modelTO (some x) t := by
  unfold modelTO
  rw [lastOf_cons_pos kv t _ hk]
  cases hl : lastOf t timeOffsetKey with
  | none => simp [hl, hv]
  | some kv2 => simp [hl]

theorem modelTO_skip (kv : List Char × List Char) (t : List (List Char × List Char))
    (o : Option SignedDecimalFloatingPoint) (hk : ¬ kv.1 = timeOffsetKey) :
    modelTO o (kv :: t) = modelTO o t := by
  unfold modelTO
  rw [lastOf_cons_neg kv t _ hk]

theorem modelPrecise_update (kv : List Char × List Char) (t : List (List Char × List Char))
    (b y : Bool) (hp : kv.1 = preciseKey) (hv : parseYesOrNo kv.2 = .ok y)
    (hbt : ¬ ∃ x ∈ t, BadVal x) : modelPrecise b (kv :: t) = modelPrecise y t := by
  unfold modelPrecise
  rw [lastOf_cons_pos kv t _ hp]
  cases hl : lastOf t preciseKey with
  | none => simp [hl, hv]
  | some kv2 =>
    obtain ⟨hm, hk2⟩ := lastOf_mem t preciseKey kv2 hl
    cases hz : parseYesOrNo kv2.2 with
    | error e2 => exact absurd ⟨kv2, hm, Or.inr ⟨hk2, by rw [hz]; rfl⟩⟩ hbt
    | ok z => simp [hl, hz]

theorem modelPrecise_skip (kv : List Char × List Char) (t : List (List Char × List Char))
    (b : Bool) (hp : ¬ kv.1 = preciseKey) : modelPrecise b (kv :: t) = modelPrecise b t := by
  unfold modelPrecise
  rw [lastOf_cons_neg kv t _ hp]

/-- Characterization of the source's attribute loop by the declarative
model: the fold over `startStep` equals `foldModel`. -/
theorem foldExcept_startStep_eq (prs : List (List Char × List Char)) :
    ∀ (o : Option SignedDecimalFloatingPoint) (b : Bool),
    foldExcept startStep (o, b) prs = foldModel o b prs := by
  induction prs with
  | nil =>
    intro o b
    rw [foldExcept_nil, foldModel, if_neg (by simp)]
    rfl
  | cons kv t ih =>
    intro o b
    rw [foldExcept_cons]
    by_cases hk : kv.1 = timeOffsetKey
    · cases hv : parseSDFChars kv.2 with
      | none =>
        have hbad : BadVal kv := Or.inl ⟨hk, hv⟩
        have hstep : startStep (o, b) kv = .error .invalidInput := by
          rw [startStep, if_pos hk, hv]
        rw [hstep, foldModel, if_pos ⟨kv, List.mem_cons_self kv t, hbad⟩]
      | some x =>
        have hstep : startStep (o, b) kv = .ok (some x, b) := by
          rw [startStep, if_pos hk, hv]
        rw [hstep]
        show foldExcept startStep (some x, b) t = _
        rw [ih (some x) b]
        have hnb : ¬ BadVal kv := by
          rintro (⟨-, h2⟩ | ⟨h1, -⟩)
          · rw [hv] at h2
            exact Option.noConfusion h2
          · exact timeOffsetKey_ne_preciseKey (hk ▸ h1 ▸ rfl)
        rw [foldModel, foldModel]
        by_cases hbt : ∃ x ∈ t, BadVal x
        · rw [if_pos hbt, if_pos ((List.exists_mem_cons_iff _ kv t).mpr (Or.inr hbt))]
        · rw [if_neg hbt, if_neg (by
            rw [List.exists_mem_cons_iff]
            rintro (h1 | h2)
            · exact hnb h1
            · exact hbt h2)]
          rw [modelTO_update kv t o x hk hv, modelPrecise_skip kv t b (by
            rw [hk]
            exact timeOffsetKey_ne_preciseKey)]
    · by_cases hp : kv.1 = preciseKey
      · cases hv : parseYesOrNo kv.2 with
        | error e =>
          have hbad : BadVal kv := Or.inr ⟨hp, by rw [hv]; rfl⟩
          have hstep : startStep (o, b) kv = .error e := by
            rw [startStep, if_neg hk, if_pos hp, hv]
          rw [hstep, foldModel, if_pos ⟨kv, List.mem_cons_self kv t, hbad⟩]
        | ok y =>
          have hstep : startStep (o, b) kv = .ok (o, y) := by
            rw [startStep, if_neg hk, if_pos hp, hv]
          rw [hstep]
          show foldExcept startStep (o, y) t = _
          rw [ih o y]
          have hnb : ¬ BadVal kv := by
            rintro (⟨h1, -⟩ | ⟨-, h2⟩)
            · exact hk h1
            · rw [hv] at h2
              exact Bool.noConfusion h2
          rw [foldModel, foldModel]
          by_cases hbt : ∃ x ∈ t, BadVal x
          · rw [if_pos hbt, if_pos ((List.exists_mem_cons_iff _ kv t).mpr (Or.inr hbt))]
          · rw [if_neg hbt, if_neg (by
              rw [List.exists_mem_cons_iff]
              rintro (h1 | h2)
              · exact hnb h1
              · exact hbt h2)]
            rw [modelPrecise_update kv t b y hp hv hbt, modelTO_skip kv t o hk]
      · have hstep : startStep (o, b) kv = .ok (o, b) := by
          rw [startStep, if_neg hk, if_neg hp]
        rw [hstep]
        show foldExcept startStep (o, b) t = _
        rw [ih o b]
        have hnb : ¬ BadVal kv := by
          rintro (⟨h1, -⟩ | ⟨h1, -⟩)
          · exact hk h1
          · exact hp h1
        rw [foldModel, foldModel]
        by_cases hbt : ∃ x ∈ t, BadVal x
        · rw [if_pos hbt, if_pos ((List.exists_mem_cons_iff _ kv t).mpr (Or.inr hbt))]
        · rw [if_neg hbt, if_neg (by
            rw [List.exists_mem_cons_iff]
            rintro (h1 | h2)
            · exact hnb h1
            · exact hbt h2)]
          rw [modelTO_skip kv t o hk, modelPrecise_skip kv t b hp]

theorem lastOf_eq_none_iff (prs : List (List Char × List Char)) (k : List Char) :
    lastOf prs k = none ↔ ∀ kv ∈ prs, kv.1 ≠ k := by
  unfold lastOf
  rw [List.getLast?_eq_none_iff, List.filter_eq_nil_iff]
  constructor
  · intro h kv hm
    have := h kv hm
    simpa using this
  · intro h kv hm
    simpa using h kv hm

theorem stringToList_inj (a b : String) (h : a.toList = b.toList) : a = b :=
  String.ext h

/-! The claim theorems. -/

/-- C1: for every well-formed tag value of type `ExtXIndependentSegments`
or `ExtXStart`, parsing the string produced by formatting the value
succeeds and returns a value equal to it. -/
theorem claim_C1_roundtrip :
    (∀ v : ExtXStart, v.time_offset.WellFormed →
      ExtXStart.fromString (ExtXStart.format v) = .ok v) ∧
    (∀ u : ExtXIndependentSegments,
      ExtXIndependentSegments.fromString (ExtXIndependentSegments.format u) = .ok u) := by
  constructor
  · intro v h
    show ExtXStart.fromChars (ExtXStart.toChars v) = .ok v
    exact fromChars_toChars v h
  · intro u
    rfl

/-- Witness for C1 at the concrete value `Start::with_precise(-1.23, true)`. -/
theorem claim_C1_roundtrip_witness :
    (⟨-123, 2⟩ : SignedDecimalFloatingPoint).WellFormed ∧
      ExtXStart.fromString (ExtXStart.format (ExtXStart.with_precise ⟨-123, 2⟩ true)) =
        .ok (ExtXStart.with_precise ⟨-123, 2⟩ true) :=
  ⟨by decide, claim_C1_roundtrip.1 (ExtXStart.with_precise ⟨-123, 2⟩ true) (by decide)⟩

/-- C4: formatting an `ExtXStart` produces exactly the prefix and
`TIME-OFFSET=<value>`, followed by `,PRECISE=YES` exactly when `precise`
is true; when `precise` is false the `PRECISE` attribute is omitted and
`PRECISE=NO` is never written. -/
theorem claim_C4_format (v : ExtXStart) :
    ExtXStart.toChars v = ("#EXT-X-START:TIME-OFFSET=").toList ++ sdfChars v.time_offset ++
      (if v.precise then (",PRECISE=YES").toList else []) ∧
    ((",PRECISE=YES").toList <:+ ExtXStart.toChars v ↔ v.precise = true) ∧
    ¬ (("PRECISE=NO").toList <:+: ExtXStart.toChars v) := by
  have hcat : ("#EXT-X-START:TIME-OFFSET=").toList = startTagLit ++ ("TIME-OFFSET=").toList := by
    decide
  have hshape : ExtXStart.toChars v = ("#EXT-X-START:TIME-OFFSET=").toList ++
      sdfChars v.time_offset ++ (if v.precise then (",PRECISE=YES").toList else []) := by
    rw [ExtXStart.toChars, hcat]
  refine ⟨hshape, ⟨?_, ?_⟩, ?_⟩
  · intro hsuf
    by_contra hp
    have hp2 : v.precise = false := by
      cases hpp : v.precise
      · rfl
      · exact absurd hpp hp
    rw [hshape, hp2] at hsuf
    have hY : ('Y') ∈ ("#EXT-X-START:TIME-OFFSET=").toList ++ sdfChars v.time_offset ++
        (if false then (",PRECISE=YES").toList else []) :=
      hsuf.subset (by decide)
    have hY2 : ('Y') ∈ ("#EXT-X-START:TIME-OFFSET=").toList ++ sdfChars v.time_offset := by
      simpa using hY
    rcases List.mem_append.mp hY2 with hY3 | hY3
    · exact absurd hY3 (by decide)
    · exact (sdfChars_ne _ _ hY3).2.2.2.2 rfl
  · intro hp
    rw [hshape, hp, if_pos rfl]
    exact ⟨("#EXT-X-START:TIME-OFFSET=").toList ++ sdfChars v.time_offset, by
      rw [List.append_assoc]⟩
  · intro hinf
    have hN : ('N') ∈ ExtXStart.toChars v := hinf.subset (by decide)
    rw [hshape] at hN
    rcases List.mem_append.mp hN with hN | hN
    · rcases List.mem_append.mp hN with hN | hN
      · exact absurd hN (by decide)
      · exact (sdfChars_ne _ _ hN).2.2.1 rfl
    · rcases hpp : v.precise with - | -
      · rw [hpp] at hN
        simp at hN
      · rw [hpp] at hN
        exact absurd hN (by decide)

/-- C5: `ExtXIndependentSegments` parsing succeeds exactly on the literal
tag line, anything else fails with `InvalidInput`, and formatting emits
exactly the literal. -/
theorem claim_C5_indep (s : String) :
    (ExtXIndependentSegments.fromString s = .ok ⟨⟩ ↔ s = "#EXT-X-INDEPENDENT-SEGMENTS") ∧
    (s ≠ "#EXT-X-INDEPENDENT-SEGMENTS" →
      ExtXIndependentSegments.fromString s = .error .invalidInput) ∧
    ExtXIndependentSegments.format ⟨⟩ = "#EXT-X-INDEPENDENT-SEGMENTS" := by
  have hbr : s.toList = indepSegLit → s = "#EXT-X-INDEPENDENT-SEGMENTS" := by
    intro h
    exact stringToList_inj _ _ h
  refine ⟨⟨?_, ?_⟩, ?_, rfl⟩
  · intro h
    by_cases he : s.toList = indepSegLit
    · exact hbr he
    · rw [ExtXIndependentSegments.fromString, ExtXIndependentSegments.fromChars,
        if_neg he] at h
      exact Except.noConfusion h
  · rintro rfl
    rfl
  · intro hne
    rw [ExtXIndependentSegments.fromString, ExtXIndependentSegments.fromChars, if_neg]
    intro he
    exact hne (hbr he)

/-- Witness for C5 at concrete inputs: the literal parses, and the
literal with a trailing colon fails. -/
theorem claim_C5_indep_witness :
    ExtXIndependentSegments.fromString ("#EXT-X-INDEPENDENT-SEGMENTS") = .ok ⟨⟩ ∧
    ExtXIndependentSegments.fromString ("#EXT-X-INDEPENDENT-SEGMENTS:") = .error .invalidInput ∧
    ExtXIndependentSegments.fromString ("#EXT-X-INDEPENDENT-SEGMENTS ") = .error .invalidInput :=
  ⟨(claim_C5_indep ("#EXT-X-INDEPENDENT-SEGMENTS")).1.mpr rfl,
   (claim_C5_indep ("#EXT-X-INDEPENDENT-SEGMENTS:")).2.1 (by decide),
   (claim_C5_indep ("#EXT-X-INDEPENDENT-SEGMENTS ")).2.1 (by decide)⟩

/-- C6: `requires_version` returns `V1` for every value of both tag
types. -/
theorem claim_C6_version :
    (∀ u : ExtXIndependentSegments, u.requires_version = ProtocolVersion.v1) ∧
    (∀ v : ExtXStart, v.requires_version = ProtocolVersion.v1) :=
  ⟨fun _ => rfl, fun _ => rfl⟩

/-- C9: `new` stores the offset and sets `precise` to false,
`with_precise` stores both arguments, and the accessors return the stored
fields. -/
theorem claim_C9_constructors :
    ∀ (t : SignedDecimalFloatingPoint) (p : Bool),
      (ExtXStart.new t).time_offset = t ∧ (ExtXStart.new t).precise = false ∧
      (ExtXStart.with_precise t p).time_offset = t ∧ (ExtXStart.with_precise t p).precise = p :=
  fun _ _ => ⟨rfl, rfl, rfl, rfl⟩

theorem fromChars_eq_model (cs : List Char) (prs : List (List Char × List Char))
    (hpre : startsWithChars startTagLit cs = true)
    (hap : attributePairsOf (cs.drop startTagLit.length) = .ok prs) :
    ExtXStart.fromChars cs = startFinish (foldModel none false prs) := by
  rw [ExtXStart.fromChars, if_pos hpre, hap, startOf_ok, foldExcept_startStep_eq]

/-- C2: `ExtXStart` parsing fails (always with `InvalidInput`, the only
error kind) exactly when the prefix does not match, `TIME-OFFSET` is
missing, a recognized attribute value fails validation, or the
attribute-pair grammar is violated. -/
theorem claim_C2_error_conditions (s : String) :
    ((∃ e, ExtXStart.fromString s = .error e) ↔
      (¬ startsWithChars startTagLit s.toList = true ∨
       MissingTimeOffset (s.toList.drop startTagLit.length) ∨
       HasBadRecognized (s.toList.drop startTagLit.length) ∨
       GrammarViolated (s.toList.drop startTagLit.length))) ∧
    (∀ e, ExtXStart.fromString s = .error e → e = ErrorKind.invalidInput) := by
  refine ⟨?_, ?_⟩
  · show (∃ e, ExtXStart.fromChars s.toList = .error e) ↔ _
    by_cases hpre : startsWithChars startTagLit s.toList = true
    · cases hap : attributePairsOf (s.toList.drop startTagLit.length) with
      | error e =>
        rw [ExtXStart.fromChars, if_pos hpre, hap, startOf_error]
        exact iff_of_true ⟨e, rfl⟩ (Or.inr (Or.inr (Or.inr ⟨e, hap⟩)))
      | ok prs =>
        rw [fromChars_eq_model s.toList prs hpre hap, foldModel]
        by_cases hbad : ∃ kv ∈ prs, BadVal kv
        · rw [if_pos hbad, startFinish_error]
          exact iff_of_true ⟨_, rfl⟩ (Or.inr (Or.inr (Or.inl ⟨prs, hap, hbad⟩)))
        · rw [if_neg hbad]
          cases hl : lastOf prs timeOffsetKey with
          | none =>
            rw [modelTO_last_none none prs hl, startFinish_ok_none]
            exact iff_of_true ⟨_, rfl⟩
              (Or.inr (Or.inl ⟨prs, hap, (lastOf_eq_none_iff prs timeOffsetKey).mp hl⟩))
          | some kvt =>
            obtain ⟨hmem, hkey⟩ := lastOf_mem prs timeOffsetKey kvt hl
            cases hx : parseSDFChars kvt.2 with
            | none => exact absurd ⟨kvt, hmem, Or.inl ⟨hkey, hx⟩⟩ hbad
            | some x =>
              rw [modelTO_last_some none prs kvt hl, hx, startFinish_ok_some]
              refine iff_of_false ?_ ?_
              · rintro ⟨e, he⟩
                exact Except.noConfusion he
              · rintro (h1 | ⟨prs2, hap2, hall⟩ | ⟨prs2, hap2, hbad2⟩ | ⟨e, hap2⟩)
                · exact h1 hpre
                · rw [hap] at hap2
                  cases hap2
                  exact hall kvt hmem hkey
                · rw [hap] at hap2
                  cases hap2
                  exact hbad hbad2
                · rw [hap] at hap2
                  exact Except.noConfusion hap2
    · rw [ExtXStart.fromChars, if_neg hpre]
      exact iff_of_true ⟨_, rfl⟩ (Or.inl hpre)
  · intro e _
    cases e
    rfl

/-- Witness for C2 at the concrete input with `TIME-OFFSET` missing. -/
theorem claim_C2_error_conditions_witness :
    (∃ e, ExtXStart.fromString ("#EXT-X-START:PRECISE=YES") = .error e) ∧
    (∀ e, ExtXStart.fromString ("#EXT-X-START:PRECISE=YES") = .error e →
      e = ErrorKind.invalidInput) :=
  ⟨(claim_C2_error_conditions ("#EXT-X-START:PRECISE=YES")).1.mpr
    (Or.inr (Or.inl ⟨[(preciseKey, ("YES").toList)], rfl, by decide⟩)),
   (claim_C2_error_conditions ("#EXT-X-START:PRECISE=YES")).2⟩

/-- C10: a malformed value on any occurrence of a recognized key makes the
parse fail with `InvalidInput`, even when a later occurrence of the same
key is well formed: validation is eager per pair. -/
theorem claim_C10_eager_validation (s : String) (prs : List (List Char × List Char))
    (kv : List Char × List Char)
    (hpre : startsWithChars startTagLit s.toList = true)
    (hap : attributePairsOf (s.toList.drop startTagLit.length) = .ok prs)
    (hmem : kv ∈ prs) (hbad : BadVal kv) :
    ExtXStart.fromString s = .error .invalidInput := by
  show ExtXStart.fromChars s.toList = _
  rw [fromChars_eq_model s.toList prs hpre hap, foldModel,
    if_pos ⟨kv, hmem, hbad⟩, startFinish_error]

/-- Witness for C10: an early malformed `TIME-OFFSET` is not rescued by a
later well-formed duplicate. -/
theorem claim_C10_eager_validation_witness :
    ExtXStart.fromString ("#EXT-X-START:TIME-OFFSET=abc,TIME-OFFSET=1") =
      .error .invalidInput :=
  claim_C10_eager_validation ("#EXT-X-START:TIME-OFFSET=abc,TIME-OFFSET=1")
    [(timeOffsetKey, ("abc").toList), (timeOffsetKey, ("1").toList)]
    (timeOffsetKey, ("abc").toList) (by decide) rfl (by decide) (by decide)

theorem exists_bad_filter (prs : List (List Char × List Char)) :
    (∃ kv ∈ prs.filter recognizedPair, BadVal kv) ↔ (∃ kv ∈ prs, BadVal kv) := by
  constructor
  · rintro ⟨kv, hm, hb⟩
    rw [List.mem_filter] at hm
    exact ⟨kv, hm.1, hb⟩
  · rintro ⟨kv, hm, hb⟩
    refine ⟨kv, List.mem_filter.mpr ⟨hm, ?_⟩, hb⟩
    rcases hb with ⟨h1, -⟩ | ⟨h1, -⟩ <;> simp [recognizedPair, h1]

theorem lastOf_filter_recog (prs : List (List Char × List Char)) (k : List Char)
    (hk : k = timeOffsetKey ∨ k = preciseKey) :
    lastOf (prs.filter recognizedPair) k = lastOf prs k := by
  unfold lastOf
  rw [List.filter_filter]
  congr 1
  apply List.filter_congr
  intro kv hm
  cases hd : decide (kv.1 = k) with
  | false => simp
  | true =>
    have hkk : kv.1 = k := of_decide_eq_true hd
    rcases hk with rfl | rfl <;> simp [recognizedPair, hkk]

theorem filter_key_length_le (prs : List (List Char × List Char)) (k : List Char)
    (hnd : (prs.map (fun kv => kv.1)).Nodup) :
    (prs.filter (fun kv => decide (kv.1 = k))).length ≤ 1 := by
  induction prs with
  | nil => simp
  | cons kv t ih =>
    rw [List.map_cons, List.nodup_cons] at hnd
    obtain ⟨hnotin, hnd2⟩ := hnd
    by_cases hk : kv.1 = k
    · rw [List.filter_cons_of_pos (by simp [hk])]
      have hft : t.filter (fun kv => decide (kv.1 = k)) = [] := by
        rw [List.filter_eq_nil_iff]
        intro x hx
        simp only [decide_eq_true_eq]
        intro hxk
        exact hnotin (List.mem_map.mpr ⟨x, hx, by rw [hxk, hk]⟩)
      rw [hft]
      simp
    · rw [List.filter_cons_of_neg (by simp [hk])]
      exact ih hnd2

theorem perm_eq_of_length_le_one {α : Type} (l1 l2 : List α) (h : l1.Perm l2)
    (hl : l1.length ≤ 1) : l1 = l2 := by
  cases l1 with
  | nil => exact List.Perm.nil_eq h
  | cons a t =>
    cases t with
    | nil => exact List.singleton_perm.mp h
    | cons b t2 => simp at hl

theorem lastOf_some_of_mem (prs : List (List Char × List Char)) (k : List Char)
    (kv : List Char × List Char) (hm : kv ∈ prs) (hk : kv.1 = k) :
    ∃ kv2, lastOf prs k = some kv2 := by
  unfold lastOf
  cases hl : (prs.filter (fun kv => decide (kv.1 = k))).getLast? with
  | some kv2 => exact ⟨kv2, rfl⟩
  | none =>
    rw [List.getLast?_eq_none_iff] at hl
    have hmem : kv ∈ prs.filter (fun kv => decide (kv.1 = k)) :=
      List.mem_filter.mpr ⟨hm, by simp [hk]⟩
    rw [hl] at hmem
    exact absurd hmem (List.not_mem_nil kv)

/-- C3: unrecognized attribute pairs have no effect: the attribute loop
gives the same result on any pair list as on its recognized-pairs
sublist; an input whose scanned pairs are well-formed `TIME-OFFSET`
occurrences (at least one) plus arbitrary pairs with other, unrecognized
names parses successfully; and concretely
`#EXT-X-START:TIME-OFFSET=0,FOO=BAR,BAZ=QUUX` parses to `Start::new(0)`. -/
theorem claim_C3_unknown_tolerance :
    (∀ (prs : List (List Char × List Char)) (o : Option SignedDecimalFloatingPoint) (b : Bool),
      foldExcept startStep (o, b) prs =
        foldExcept startStep (o, b) (prs.filter recognizedPair)) ∧
    (∀ (s : String) (prs : List (List Char × List Char)),
      startsWithChars startTagLit s.toList = true →
      attributePairsOf (s.toList.drop startTagLit.length) = .ok prs →
      (∃ kv ∈ prs, kv.1 = timeOffsetKey) →
      (∀ kv ∈ prs, kv.1 = timeOffsetKey → parseSDFChars kv.2 ≠ none) →
      (∀ kv ∈ prs, kv.1 ≠ preciseKey) →
      ∃ r, ExtXStart.fromString s = .ok r ∧ r.precise = false) ∧
    ExtXStart.fromString ("#EXT-X-START:TIME-OFFSET=0,FOO=BAR,BAZ=QUUX") =
      .ok (ExtXStart.new ⟨0, 0⟩) := by
  refine ⟨?_, ?_, rfl⟩
  · intro prs o b
    rw [foldExcept_startStep_eq, foldExcept_startStep_eq, foldModel, foldModel]
    by_cases hb : ∃ kv ∈ prs, BadVal kv
    · rw [if_pos hb, if_pos ((exists_bad_filter prs).mpr hb)]
    · rw [if_neg hb, if_neg (fun hcon => hb ((exists_bad_filter prs).mp hcon))]
      have h1 : modelTO o (prs.filter recognizedPair) = modelTO o prs := by
        unfold modelTO
        rw [lastOf_filter_recog prs timeOffsetKey (Or.inl rfl)]
      have h2 : modelPrecise b (prs.filter recognizedPair) = modelPrecise b prs := by
        unfold modelPrecise
        rw [lastOf_filter_recog prs preciseKey (Or.inr rfl)]
      rw [h1, h2]
  · intro s prs hpre hap hex hvalid hnop
    obtain ⟨kv, hm, hk⟩ := hex
    have hnb : ¬ ∃ kv ∈ prs, BadVal kv := by
      rintro ⟨kv2, hm2, (⟨h1, h2⟩ | ⟨h1, -⟩)⟩
      · exact hvalid kv2 hm2 h1 h2
      · exact hnop kv2 hm2 h1
    obtain ⟨kvt, hlt⟩ := lastOf_some_of_mem prs timeOffsetKey kv hm hk
    obtain ⟨hmt, hkt⟩ := lastOf_mem prs timeOffsetKey kvt hlt
    cases hx : parseSDFChars kvt.2 with
    | none => exact absurd hx (hvalid kvt hmt hkt)
    | some x =>
      have hlp : lastOf prs preciseKey = none := by
        rw [lastOf_eq_none_iff]
        exact hnop
      refine ⟨⟨x, false⟩, ?_, rfl⟩
      show ExtXStart.fromChars s.toList = _
      rw [fromChars_eq_model s.toList prs hpre hap, foldModel, if_neg hnb,
        modelTO_last_some none prs kvt hlt, hx, modelPrecise_last_none false prs hlp,
        startFinish_ok_some]

/-- Witness for C3: the success part applied at the concrete
unknown-attribute input. -/
theorem claim_C3_unknown_tolerance_witness :
    ∃ r, ExtXStart.fromString ("#EXT-X-START:TIME-OFFSET=0,FOO=BAR,BAZ=QUUX") = .ok r ∧
      r.precise = false :=
  claim_C3_unknown_tolerance.2.1 ("#EXT-X-START:TIME-OFFSET=0,FOO=BAR,BAZ=QUUX")
    [(timeOffsetKey, ("0").toList), (("FOO").toList, ("BAR").toList),
      (("BAZ").toList, ("QUUX").toList)]
    (by decide) rfl (by decide) (by decide) (by decide)

/-- C8: when the recognized keys appear several times, all with
well-formed values, parsing succeeds and the last occurrence of each
recognized key wins. -/
theorem claim_C8_last_wins (s : String) (prs : List (List Char × List Char))
    (kvt : List Char × List Char)
    (hpre : startsWithChars startTagLit s.toList = true)
    (hap : attributePairsOf (s.toList.drop startTagLit.length) = .ok prs)
    (hbad : ¬ ∃ kv ∈ prs, BadVal kv)
    (hl : lastOf prs timeOffsetKey = some kvt) :
    ∃ x p, parseSDFChars kvt.2 = some x ∧
      ExtXStart.fromString s = .ok ⟨x, p⟩ ∧
      ((lastOf prs preciseKey = none ∧ p = false) ∨
       (∃ kvp, lastOf prs preciseKey = some kvp ∧ parseYesOrNo kvp.2 = .ok p)) := by
  obtain ⟨hmt, hkt⟩ := lastOf_mem prs timeOffsetKey kvt hl
  cases hx : parseSDFChars kvt.2 with
  | none => exact absurd ⟨kvt, hmt, Or.inl ⟨hkt, hx⟩⟩ hbad
  | some x =>
    refine ⟨x, modelPrecise false prs, rfl, ?_, ?_⟩
    · show ExtXStart.fromChars s.toList = _
      rw [fromChars_eq_model s.toList prs hpre hap, foldModel, if_neg hbad,
        modelTO_last_some none prs kvt hl, hx, startFinish_ok_some]
    · cases hlp : lastOf prs preciseKey with
      | none => exact Or.inl ⟨rfl, modelPrecise_last_none false prs hlp⟩
      | some kvp =>
        obtain ⟨hmp, hkp⟩ := lastOf_mem prs preciseKey kvp hlp
        cases hy : parseYesOrNo kvp.2 with
        | error e => exact absurd ⟨kvp, hmp, Or.inr ⟨hkp, by rw [hy]; rfl⟩⟩ hbad
        | ok y =>
          have hmp2 : modelPrecise false prs = y := by
            unfold modelPrecise
            rw [hlp]
            simp [hy]
          exact Or.inr ⟨kvp, rfl, by rw [hy, hmp2]⟩

/-- Witness for C8 at a concrete input with duplicated recognized keys:
the theorem applied to it, so the last `TIME-OFFSET` and the last
`PRECISE` win. -/
theorem claim_C8_last_wins_witness :
    ∃ x p, parseSDFChars (("2").toList) = some x ∧
      ExtXStart.fromString
        ("#EXT-X-START:TIME-OFFSET=1,TIME-OFFSET=2,PRECISE=NO,PRECISE=YES") = .ok ⟨x, p⟩ ∧
      ((lastOf [(timeOffsetKey, ("1").toList), (timeOffsetKey, ("2").toList),
          (preciseKey, ("NO").toList), (preciseKey, ("YES").toList)] preciseKey = none ∧
          p = false) ∨
       (∃ kvp, lastOf [(timeOffsetKey, ("1").toList), (timeOffsetKey, ("2").toList),
          (preciseKey, ("NO").toList), (preciseKey, ("YES").toList)] preciseKey = some kvp ∧
          parseYesOrNo kvp.2 = .ok p)) :=
  claim_C8_last_wins ("#EXT-X-START:TIME-OFFSET=1,TIME-OFFSET=2,PRECISE=NO,PRECISE=YES")
    [(timeOffsetKey, ("1").toList), (timeOffsetKey, ("2").toList),
      (preciseKey, ("NO").toList), (preciseKey, ("YES").toList)]
    (timeOffsetKey, ("2").toList) (by decide) rfl (by decide) (by decide)

/-- Counterexample to C7 as frozen: the parse result is not invariant
under every permutation of a successfully parsed attribute list, because
duplicate recognized keys are resolved last-wins; swapping two
`TIME-OFFSET` pairs changes the result. -/
theorem claim_C7_counterexample :
    attributePairsOf (("TIME-OFFSET=1,TIME-OFFSET=2").toList) =
      .ok [(timeOffsetKey, ("1").toList), (timeOffsetKey, ("2").toList)] ∧
    attributePairsOf (("TIME-OFFSET=2,TIME-OFFSET=1").toList) =
      .ok [(timeOffsetKey, ("2").toList), (timeOffsetKey, ("1").toList)] ∧
    List.Perm [(timeOffsetKey, ("1").toList), (timeOffsetKey, ("2").toList)]
      [(timeOffsetKey, ("2").toList), (timeOffsetKey, ("1").toList)] ∧
    ExtXStart.fromString ("#EXT-X-START:TIME-OFFSET=1,TIME-OFFSET=2") =
      .ok (ExtXStart.new ⟨2, 0⟩) ∧
    ExtXStart.fromString ("#EXT-X-START:TIME-OFFSET=2,TIME-OFFSET=1") =
      .ok (ExtXStart.new ⟨1, 0⟩) ∧
    ExtXStart.new ⟨2, 0⟩ ≠ ExtXStart.new ⟨1, 0⟩ :=
  ⟨rfl, rfl, List.Perm.swap _ _ _, rfl, rfl, by decide⟩

/-- C7 (amended): for attribute lists without duplicate names — the only
lists valid per RFC 8216 section 4.2 — the parse result is invariant
under permutation; in particular the spec's concrete reordered input
parses to `Start::with_precise(1.23, true)`. -/
theorem claim_C7_order_independence :
    (∀ (cs1 cs2 : List Char) (prs1 prs2 : List (List Char × List Char)),
      startsWithChars startTagLit cs1 = true →
      startsWithChars startTagLit cs2 = true →
      attributePairsOf (cs1.drop startTagLit.length) = .ok prs1 →
      attributePairsOf (cs2.drop startTagLit.length) = .ok prs2 →
      prs1.Perm prs2 →
      (prs1.map (fun kv => kv.1)).Nodup →
      ExtXStart.fromChars cs1 = ExtXStart.fromChars cs2) ∧
    ExtXStart.fromString ("#EXT-X-START:PRECISE=YES,TIME-OFFSET=1.23") =
      .ok (ExtXStart.with_precise ⟨123, 2⟩ true) := by
  refine ⟨?_, rfl⟩
  intro cs1 cs2 prs1 prs2 hp1 hp2 ha1 ha2 hperm hnd
  rw [fromChars_eq_model cs1 prs1 hp1 ha1, fromChars_eq_model cs2 prs2 hp2 ha2]
  rw [foldModel, foldModel]
  by_cases hb : ∃ kv ∈ prs1, BadVal kv
  · rw [if_pos hb, if_pos (by
      obtain ⟨kv, hm, hbv⟩ := hb
      exact ⟨kv, hperm.mem_iff.mp hm, hbv⟩)]
  · rw [if_neg hb, if_neg (by
      rintro ⟨kv, hm, hbv⟩
      exact hb ⟨kv, hperm.mem_iff.mpr hm, hbv⟩)]
    have hfeq : ∀ k : List Char, prs1.filter (fun kv => decide (kv.1 = k)) =
        prs2.filter (fun kv => decide (kv.1 = k)) := by
      intro k
      exact perm_eq_of_length_le_one _ _ (hperm.filter _) (filter_key_length_le prs1 k hnd)
    have h1 : modelTO none prs1 = modelTO none prs2 := by
      unfold modelTO lastOf
      rw [hfeq timeOffsetKey]
    have h2 : modelPrecise false prs1 = modelPrecise false prs2 := by
      unfold modelPrecise lastOf
      rw [hfeq preciseKey]
    rw [h1, h2]

/-- Witness for C7 (amended): the two orders of the spec's concrete
attribute list parse identically. -/
theorem claim_C7_order_independence_witness :
    ExtXStart.fromChars (("#EXT-X-START:PRECISE=YES,TIME-OFFSET=1.23").toList) =
      ExtXStart.fromChars (("#EXT-X-START:TIME-OFFSET=1.23,PRECISE=YES").toList) :=
  claim_C7_order_independence.1
    (("#EXT-X-START:PRECISE=YES,TIME-OFFSET=1.23").toList)
    (("#EXT-X-START:TIME-OFFSET=1.23,PRECISE=YES").toList)
    [(preciseKey, ("YES").toList), (timeOffsetKey, ("1.23").toList)]
    [(timeOffsetKey, ("1.23").toList), (preciseKey, ("YES").toList)]
    (by decide) (by decide) rfl rfl (List.Perm.swap _ _ _) (by decide)
